import Mathlib

/-!
Verification development for the Console-Snake game (src/Snake.cpp).

The game state and its operations (`reset`, `handleInput`, `step`,
`spawnFood`, `hitWall`, `hitSelf`, `isOpposite`) are embedded as pure
Lean functions.  The pseudo-random source (`Random::nextInt`) is
modelled by consuming an explicit stream of raw draws: `nextInt lo hi n`
maps a raw natural draw `n` into the contract range `[lo, hi]`, and
`spawnFood` consumes a finite list of `(x-draw, y-draw)` pairs, so its
unbounded retry loop becomes a fuel-bounded recursion returning
`Option`.  Operations that may invoke `spawnFood` therefore return
`Option Game`, with `none` meaning the supplied random stream ran out.
-/

set_option autoImplicit false

/-- Grid coordinate pair, mirroring `struct Vec2 { int x; int y; }`. -/
structure Vec2 where
  x : Int
  y : Int
deriving DecidableEq

/-- Movement direction, mirroring `enum class Dir`. -/
inductive Dir where
  | Up
  | Down
  | Left
  | Right
deriving DecidableEq

/-- The mutable fields of `class Game` (the deque `snake_` becomes a
head-first list). -/
structure Game where
  w : Int
  h : Int
  snake : List Vec2
  food : Vec2
  dir : Dir
  quit : Bool
  gameOver : Bool
  score : Int
  tickMs : Int
deriving DecidableEq

/-- Model of `Random::nextInt(lo, hi)`: folds a raw draw into the
contract range `[lo, hi]` (for `lo ≤ hi`). -/
def nextInt (lo hi : Int) (n : Nat) : Int :=
  lo + (n : Int) % (hi - lo + 1)

/-- The occupancy scan shared by `Game::hitSelf` and the retry loop of
`Game::spawnFood`: does any snake segment equal `p`? -/
def occupies (snake : List Vec2) (p : Vec2) : Bool :=
  snake.any (fun q => decide (q = p))

/-- `Game::hitWall`: `p.x <= 0 || p.x >= w_-1 || p.y <= 0 || p.y >= h_-1`. -/
def hitWall (g : Game) (p : Vec2) : Bool :=
  decide (p.x ≤ 0) || decide (p.x ≥ g.w - 1) || decide (p.y ≤ 0) || decide (p.y ≥ g.h - 1)

/-- `Game::hitSelf`: `p` equals some current body segment. -/
def hitSelf (g : Game) (p : Vec2) : Bool :=
  occupies g.snake p

/-- `Game::isOpposite`. -/
def isOpposite (a b : Dir) : Bool :=
  if a = Dir.Up ∧ b = Dir.Down then true
  else if a = Dir.Down ∧ b = Dir.Up then true
  else if a = Dir.Left ∧ b = Dir.Right then true
  else if a = Dir.Right ∧ b = Dir.Left then true
  else false

/-- The next-head computation at the top of `Game::step`: apply the
current direction's unit offset to the head. -/
def nextHead (d : Dir) (head : Vec2) : Vec2 :=
  let n0 := head
  let n1 := if d = Dir.Up then { n0 with y := n0.y - 1 } else n0
  let n2 := if d = Dir.Down then { n1 with y := n1.y + 1 } else n1
  let n3 := if d = Dir.Left then { n2 with x := n2.x - 1 } else n2
  if d = Dir.Right then { n3 with x := n3.x + 1 } else n3

/-- The next head position of a game state (`snake_.front()` plus the
direction offset); the head of an empty body is given a default, which
never matters in reachable states since the body has length ≥ 3. -/
def nextPos (g : Game) : Vec2 :=
  nextHead g.dir (g.snake.headD ⟨0, 0⟩)

/-- `Game::spawnFood`: repeatedly draw an interior candidate and retry
while it lands on the snake.  Each loop iteration consumes one pair of
raw draws; an exhausted stream yields `none`. -/
def spawnFood (w h : Int) (snake : List Vec2) : List (Nat × Nat) → Option Vec2
  | [] => none
  | (a, b) :: rest =>
    let p : Vec2 := ⟨nextInt 1 (w - 2) a, nextInt 1 (h - 2) b⟩
    if occupies snake p then spawnFood w h snake rest else some p

/-- `Game::reset`: rebuild the 3-segment snake at the grid centre,
restore direction, flags, score and tick interval, and spawn food. -/
def reset (g : Game) (rnd : List (Nat × Nat)) : Option Game :=
  let snake : List Vec2 :=
    [⟨g.w / 2, g.h / 2⟩, ⟨g.w / 2 - 1, g.h / 2⟩, ⟨g.w / 2 - 2, g.h / 2⟩]
  match spawnFood g.w g.h snake rnd with
  | none => none
  | some f =>
    some { g with snake := snake, food := f, dir := Dir.Right, quit := false,
                  gameOver := false, score := 0, tickMs := 110 }

/-- `Game::handleInput`, with the polled character passed in (`c = 0`
is the "no key" sentinel).  The random stream is consumed only on a
restart. -/
def handleInput (g : Game) (c : Char) (rnd : List (Nat × Nat)) : Option Game :=
  if c.toNat = 0 then some g
  else if c = 'q' ∨ c = 'Q' then some { g with quit := true }
  else if (c = 'r' ∨ c = 'R') ∧ g.gameOver then reset g rnd
  else
    let next0 := g.dir
    let next1 := if c = 'w' ∨ c = 'W' then Dir.Up else next0
    let next2 := if c = 's' ∨ c = 'S' then Dir.Down else next1
    let next3 := if c = 'a' ∨ c = 'A' then Dir.Left else next2
    let next4 := if c = 'd' ∨ c = 'D' then Dir.Right else next3
    if isOpposite g.dir next4 then some g else some { g with dir := next4 }

/-- `Game::step`: no-op when game over; otherwise compute the next head,
check wall and self collision (transitioning to game over with the body
untouched), then push the new head; on food, bump score, tighten the
tick interval and respawn food; otherwise pop the tail. -/
def step (g : Game) (rnd : List (Nat × Nat)) : Option Game :=
  if g.gameOver then some g
  else
    let next := nextPos g
    if hitWall g next || hitSelf g next then some { g with gameOver := true }
    else
      let g1 := { g with snake := next :: g.snake }
      if next = g.food then
        match spawnFood g1.w g1.h g1.snake rnd with
        | none => none
        | some f =>
          some { g1 with score := g1.score + 10, tickMs := max 55 (g1.tickMs - 2),
                         food := f }
      else some { g1 with snake := g1.snake.dropLast }

/-- The state `main` constructs before the constructor's `reset()` call:
grid 50×22 and the in-class member initializers of `Game`. -/
def initGame : Game :=
  { w := 50, h := 22, snake := [], food := ⟨0, 0⟩, dir := Dir.Right,
    quit := false, gameOver := false, score := 0, tickMs := 110 }

/-- States reachable from `Game game(50, 22)` (whose constructor calls
`reset()`) by any interleaving of `step()` and `handleInput()` calls,
over all random streams. -/
inductive Reachable : Game → Prop where
  | init (rnd : List (Nat × Nat)) (g : Game) :
      reset initGame rnd = some g → Reachable g
  | stepTr (g : Game) (rnd : List (Nat × Nat)) (g' : Game) :
      Reachable g → step g rnd = some g' → Reachable g'
  | inputTr (g : Game) (c : Char) (rnd : List (Nat × Nat)) (g' : Game) :
      Reachable g → handleInput g c rnd = some g' → Reachable g'

/-- Strict interior of the grid: inside the 1-cell border wall. -/
def interiorP (w h : Int) (p : Vec2) : Prop :=
  1 ≤ p.x ∧ p.x ≤ w - 2 ∧ 1 ≤ p.y ∧ p.y ≤ h - 2

instance (w h : Int) (p : Vec2) : Decidable (interiorP w h p) := by
  unfold interiorP
  infer_instance

/-- The mapped direction of a recognized movement key (the w/a/s/d
handling in `Game::handleInput`), `none` for unrecognized keys. -/
def keyDir (c : Char) : Option Dir :=
  if c = 'w' ∨ c = 'W' then some Dir.Up
  else if c = 's' ∨ c = 'S' then some Dir.Down
  else if c = 'a' ∨ c = 'A' then some Dir.Left
  else if c = 'd' ∨ c = 'D' then some Dir.Right
  else none

/-- The exact opposite of a direction. -/
def Dir.opp : Dir → Dir
  | Dir.Up => Dir.Down
  | Dir.Down => Dir.Up
  | Dir.Left => Dir.Right
  | Dir.Right => Dir.Left

/-- The inductive invariant of the 50×22 game: the grid dimensions are
fixed, the body has at least its initial 3 segments, every segment and
the food lie strictly inside the border wall, the body has no duplicate
positions while playing, and the score tracks the growth of the body. -/
def GameInv (g : Game) : Prop :=
  g.w = 50 ∧ g.h = 22 ∧ 3 ≤ g.snake.length ∧
  (∀ p ∈ g.snake, interiorP g.w g.h p) ∧
  interiorP g.w g.h g.food ∧
  (g.gameOver = false → g.snake.Nodup) ∧
  g.score = 10 * ((g.snake.length : Int) - 3)

/-- The freshly reset 50×22 state with food at (1, 1): the image of
`reset initGame [(0, 0)]`. -/
def exStart : Game :=
  { w := 50, h := 22, snake := [⟨25, 11⟩, ⟨24, 11⟩, ⟨23, 11⟩], food := ⟨1, 1⟩,
    dir := Dir.Right, quit := false, gameOver := false, score := 0, tickMs := 110 }

/-- The fresh state with the food placed directly ahead of the head. -/
def exFoodAhead : Game :=
  { exStart with food := ⟨26, 11⟩ }

/-- The state after `exFoodAhead` eats: body grown to 4, score 10,
tick interval 108, food respawned at (1, 1). -/
def exAfterEat : Game :=
  { w := 50, h := 22, snake := [⟨26, 11⟩, ⟨25, 11⟩, ⟨24, 11⟩, ⟨23, 11⟩],
    food := ⟨1, 1⟩, dir := Dir.Right, quit := false, gameOver := false,
    score := 10, tickMs := 108 }

/-- A game-over variant of the fresh state. -/
def exOver : Game :=
  { exStart with gameOver := true }

/-- A playing state whose head is at x = 48, one move away from the
right wall. -/
def exWall : Game :=
  { exStart with snake := [⟨48, 11⟩, ⟨47, 11⟩, ⟨46, 11⟩] }

/-! ### Basic lemmas about the embedded operations -/

theorem occupies_eq_true_iff (s : List Vec2) (p : Vec2) :
    occupies s p = true ↔ p ∈ s := by
  unfold occupies
  rw [List.any_eq_true]
  constructor
  · rintro ⟨x, hx, hdec⟩
    exact of_decide_eq_true hdec ▸ hx
  · intro hp
    exact ⟨p, hp, by simp⟩

theorem occupies_eq_false_iff (s : List Vec2) (p : Vec2) :
    occupies s p = false ↔ p ∉ s := by
  rw [Bool.eq_false_iff, Ne, occupies_eq_true_iff]

theorem hitWall_eq_false_iff (g : Game) (p : Vec2) :
    hitWall g p = false ↔ interiorP g.w g.h p := by
  simp [hitWall, interiorP]
  omega

theorem hitSelf_eq_false_iff (g : Game) (p : Vec2) :
    hitSelf g p = false ↔ p ∉ g.snake :=
  occupies_eq_false_iff g.snake p

theorem nextInt_bounds (lo hi : Int) (n : Nat) (h : lo ≤ hi) :
    lo ≤ nextInt lo hi n ∧ nextInt lo hi n ≤ hi := by
  unfold nextInt
  have h1 := Int.emod_nonneg (n : Int) (by omega : hi - lo + 1 ≠ 0)
  have h2 := Int.emod_lt_of_pos (n : Int) (by omega : (0 : Int) < hi - lo + 1)
  omega

theorem spawnFood_sound (w h : Int) (s : List Vec2) (rnd : List (Nat × Nat)) (p : Vec2)
    (hw : 3 ≤ w) (hh : 3 ≤ h) (hret : spawnFood w h s rnd = some p) :
    interiorP w h p ∧ p ∉ s := by
  induction rnd with
  | nil => simp [spawnFood] at hret
  | cons ab rest ih =>
    obtain ⟨a, b⟩ := ab
    unfold spawnFood at hret
    by_cases hocc : occupies s ⟨nextInt 1 (w - 2) a, nextInt 1 (h - 2) b⟩ = true
    · rw [if_pos hocc] at hret
      exact ih hret
    · rw [if_neg hocc] at hret
      injection hret with hpe
      subst hpe
      refine ⟨?_, (occupies_eq_false_iff _ _).mp (Bool.eq_false_iff.mpr hocc)⟩
      have hx := nextInt_bounds 1 (w - 2) a (by omega)
      have hy := nextInt_bounds 1 (h - 2) b (by omega)
      exact ⟨hx.1, hx.2, hy.1, hy.2⟩

theorem dropLast_cons_of_ne_nil {α : Type} (a : α) (l : List α) (h : l ≠ []) :
    (a :: l).dropLast = a :: l.dropLast := by
  cases l with
  | nil => exact absurd rfl h
  | cons b t => rfl

theorem isOpposite_eq_true_iff (a b : Dir) : isOpposite a b = true ↔ b = a.opp := by
  cases a <;> cases b <;> decide

theorem spawnFood_not_mem (w h : Int) (s : List Vec2) (rnd : List (Nat × Nat)) (p : Vec2)
    (hret : spawnFood w h s rnd = some p) : p ∉ s := by
  induction rnd with
  | nil => simp [spawnFood] at hret
  | cons ab rest ih =>
    obtain ⟨a, b⟩ := ab
    unfold spawnFood at hret
    by_cases hocc : occupies s ⟨nextInt 1 (w - 2) a, nextInt 1 (h - 2) b⟩ = true
    · rw [if_pos hocc] at hret
      exact ih hret
    · rw [if_neg hocc] at hret
      injection hret with hpe
      subst hpe
      exact (occupies_eq_false_iff _ _).mp (Bool.eq_false_iff.mpr hocc)

theorem step_eq_noop (g : Game) (rnd : List (Nat × Nat)) (hgo : g.gameOver = true) :
    step g rnd = some g := by
  simp [step, hgo]

theorem step_eq_collision (g : Game) (rnd : List (Nat × Nat))
    (hgo : g.gameOver = false)
    (hc : (hitWall g (nextPos g) || hitSelf g (nextPos g)) = true) :
    step g rnd = some { g with gameOver := true } := by
  simp [step, hgo, hc]

theorem step_eq_move (g : Game) (rnd : List (Nat × Nat))
    (hgo : g.gameOver = false)
    (hw : hitWall g (nextPos g) = false) (hs : hitSelf g (nextPos g) = false)
    (hnf : nextPos g ≠ g.food) :
    step g rnd = some { g with snake := (nextPos g :: g.snake).dropLast } := by
  simp [step, hgo, hw, hs, hnf]

theorem step_eq_eat (g : Game) (rnd : List (Nat × Nat))
    (hgo : g.gameOver = false)
    (hw : hitWall g (nextPos g) = false) (hs : hitSelf g (nextPos g) = false)
    (hf : nextPos g = g.food) :
    step g rnd =
      match spawnFood g.w g.h (nextPos g :: g.snake) rnd with
      | none => none
      | some f =>
        some { g with snake := nextPos g :: g.snake, score := g.score + 10,
                      tickMs := max 55 (g.tickMs - 2), food := f } := by
  rw [hf] at hw hs
  simp [step, hgo, hw, hs, hf]

theorem handleInput_eq_key (g : Game) (c : Char) (rnd : List (Nat × Nat)) (d : Dir)
    (hc : keyDir c = some d) :
    handleInput g c rnd =
      if isOpposite g.dir d then some g else some { g with dir := d } := by
  unfold keyDir at hc
  split_ifs at hc with h1 h2 h3 h4
  · injection hc with hd
    subst hd
    rcases h1 with rfl | rfl <;> simp [handleInput]
  · injection hc with hd
    subst hd
    rcases h2 with rfl | rfl <;> simp [handleInput]
  · injection hc with hd
    subst hd
    rcases h3 with rfl | rfl <;> simp [handleInput]
  · injection hc with hd
    subst hd
    rcases h4 with rfl | rfl <;> simp [handleInput]

theorem handleInput_eq_restart (g : Game) (c : Char) (rnd : List (Nat × Nat))
    (hc : c = 'r' ∨ c = 'R') (hgo : g.gameOver = true) :
    handleInput g c rnd = reset g rnd := by
  rcases hc with rfl | rfl <;> simp [handleInput, hgo]

theorem handleInput_eq_ignored_restart (g : Game) (c : Char) (rnd : List (Nat × Nat))
    (hc : c = 'r' ∨ c = 'R') (hgo : g.gameOver = false) :
    handleInput g c rnd = some g := by
  rcases hc with rfl | rfl <;> cases hd : g.dir <;>
    simp [handleInput, hgo, isOpposite, hd] <;> rw [← hd, ← hgo]

theorem isOpposite_self_eq_false (d : Dir) : isOpposite d d = false := by
  cases d <;> decide

theorem handleInput_eq_other (g : Game) (c : Char) (rnd : List (Nat × Nat))
    (hk : keyDir c = none) (h0 : ¬c.toNat = 0) (hq : ¬(c = 'q' ∨ c = 'Q'))
    (hr : ¬((c = 'r' ∨ c = 'R') ∧ g.gameOver = true)) :
    handleInput g c rnd = some g := by
  unfold keyDir at hk
  split_ifs at hk with k1 k2 k3 k4
  unfold handleInput
  rw [if_neg h0, if_neg hq, if_neg hr]
  simp only [if_neg k1, if_neg k2, if_neg k3, if_neg k4,
    isOpposite_self_eq_false, Bool.false_eq_true, if_false]

theorem reset_inv (g : Game) (rnd : List (Nat × Nat)) (g' : Game)
    (hw : g.w = 50) (hh : g.h = 22) (h : reset g rnd = some g') : GameInv g' := by
  simp only [reset] at h
  split at h
  · cases h
  · next f hsf =>
    injection h with h
    subst h
    have hfood := spawnFood_sound g.w g.h _ rnd f (by omega) (by omega) hsf
    refine ⟨hw, hh, by simp, ?_, hfood.1, ?_, by simp⟩
    · intro p hp
      simp only [List.mem_cons, List.not_mem_nil, or_false] at hp
      rcases hp with rfl | rfl | rfl <;> simp [interiorP] <;> omega
    · intro _
      simp [List.nodup_cons, Vec2.mk.injEq]
      omega

theorem handleInput_inv (g : Game) (c : Char) (rnd : List (Nat × Nat)) (g' : Game)
    (hg : GameInv g) (h : handleInput g c rnd = some g') : GameInv g' := by
  by_cases h0 : c.toNat = 0
  · have he : handleInput g c rnd = some g := by
      unfold handleInput
      rw [if_pos h0]
    rw [he] at h
    injection h with h
    subst h
    exact hg
  by_cases hq : c = 'q' ∨ c = 'Q'
  · have he : handleInput g c rnd = some { g with quit := true } := by
      unfold handleInput
      rw [if_neg h0, if_pos hq]
    rw [he] at h
    injection h with h
    subst h
    exact hg
  by_cases hr : (c = 'r' ∨ c = 'R') ∧ g.gameOver = true
  · have he : handleInput g c rnd = reset g rnd := by
      unfold handleInput
      rw [if_neg h0, if_neg hq, if_pos hr]
    rw [he] at h
    exact reset_inv g rnd g' hg.1 hg.2.1 h
  cases hk : keyDir c with
  | none =>
    rw [handleInput_eq_other g c rnd hk h0 hq hr] at h
    injection h with h
    subst h
    exact hg
  | some d =>
    rw [handleInput_eq_key g c rnd d hk] at h
    by_cases hop : isOpposite g.dir d = true
    · rw [if_pos hop] at h
      injection h with h
      subst h
      exact hg
    · rw [if_neg hop] at h
      injection h with h
      subst h
      exact hg

theorem step_inv (g : Game) (rnd : List (Nat × Nat)) (g' : Game)
    (hg : GameInv g) (h : step g rnd = some g') : GameInv g' := by
  obtain ⟨hw50, hh22, hlen, hseg, hfood, hnd, hscore⟩ := hg
  by_cases hgo : g.gameOver = true
  · rw [step_eq_noop g rnd hgo] at h
    injection h with h
    subst h
    exact ⟨hw50, hh22, hlen, hseg, hfood, hnd, hscore⟩
  · have hgo' : g.gameOver = false := Bool.eq_false_iff.mpr hgo
    by_cases hcol : (hitWall g (nextPos g) || hitSelf g (nextPos g)) = true
    · rw [step_eq_collision g rnd hgo' hcol] at h
      injection h with h
      subst h
      exact ⟨hw50, hh22, hlen, hseg, hfood, fun hb => Bool.noConfusion hb, hscore⟩
    · have hw0 : hitWall g (nextPos g) = false := by
        revert hcol
        cases hitWall g (nextPos g) <;> simp
      have hs0 : hitSelf g (nextPos g) = false := by
        revert hcol
        cases hitSelf g (nextPos g) <;> simp
      have hnint : interiorP g.w g.h (nextPos g) := (hitWall_eq_false_iff g _).mp hw0
      have hnmem : nextPos g ∉ g.snake := (hitSelf_eq_false_iff g _).mp hs0
      by_cases hf : nextPos g = g.food
      · rw [step_eq_eat g rnd hgo' hw0 hs0 hf] at h
        cases hsf : spawnFood g.w g.h (nextPos g :: g.snake) rnd with
        | none =>
          rw [hsf] at h
          cases h
        | some f =>
          rw [hsf] at h
          injection h with h
          subst h
          have hfd := spawnFood_sound g.w g.h _ rnd f (by omega) (by omega) hsf
          refine ⟨hw50, hh22, ?_, ?_, hfd.1, ?_, ?_⟩
          · simp only [List.length_cons]
            omega
          · intro p hp
            rcases List.mem_cons.mp hp with rfl | hp
            · exact hnint
            · exact hseg p hp
          · intro _
            exact List.nodup_cons.mpr ⟨hnmem, hnd hgo'⟩
          · simp only [List.length_cons]
            push_cast
            omega
      · rw [step_eq_move g rnd hgo' hw0 hs0 hf] at h
        injection h with h
        subst h
        have hne : g.snake ≠ [] := by
          intro he
          rw [he] at hlen
          simp at hlen
        have hlen' : ((nextPos g :: g.snake).dropLast).length = g.snake.length := by
          rw [List.length_dropLast, List.length_cons]
          omega
        refine ⟨hw50, hh22, ?_, ?_, hfood, ?_, ?_⟩
        · show 3 ≤ ((nextPos g :: g.snake).dropLast).length
          rw [hlen']
          exact hlen
        · intro p hp
          rw [dropLast_cons_of_ne_nil _ _ hne] at hp
          rcases List.mem_cons.mp hp with rfl | hp
          · exact hnint
          · exact hseg p (List.mem_of_mem_dropLast hp)
        · intro _
          rw [dropLast_cons_of_ne_nil _ _ hne]
          refine List.nodup_cons.mpr
            ⟨?_, List.Nodup.sublist (List.dropLast_sublist g.snake) (hnd hgo')⟩
          intro hmem
          exact hnmem (List.mem_of_mem_dropLast hmem)
        · show (g.score : Int) = 10 * ((((nextPos g :: g.snake).dropLast).length : Int) - 3)
          rw [hlen']
          exact hscore

theorem reachable_inv (g : Game) (hg : Reachable g) : GameInv g := by
  induction hg with
  | init rnd g h => exact reset_inv initGame rnd g rfl rfl h
  | stepTr g rnd g' _ h ih => exact step_inv g rnd g' ih h
  | inputTr g c rnd g' _ h ih => exact handleInput_inv g c rnd g' ih h

/-! ### The claims -/

/-- C1: In a Playing state (gameOver false) whose next head position is
strictly inside the open interior, not occupied by any body segment and
not equal to the food, `step` pushes the next head to the front and pops
the tail; the record-update form of the result shows that score, tick
interval, food and direction are unchanged, and the second conjunct that
the body length is unchanged. -/
theorem step_moves_snake_forward (g : Game) (rnd : List (Nat × Nat))
    (hgo : g.gameOver = false) (hne : g.snake ≠ [])
    (hin : interiorP g.w g.h (nextPos g)) (hns : nextPos g ∉ g.snake)
    (hnf : nextPos g ≠ g.food) :
    step g rnd = some { g with snake := nextPos g :: g.snake.dropLast } ∧
    (nextPos g :: g.snake.dropLast).length = g.snake.length := by
  have hw0 : hitWall g (nextPos g) = false := (hitWall_eq_false_iff g _).mpr hin
  have hs0 : hitSelf g (nextPos g) = false := (hitSelf_eq_false_iff g _).mpr hns
  constructor
  · rw [step_eq_move g rnd hgo hw0 hs0 hnf, dropLast_cons_of_ne_nil _ _ hne]
  · rw [List.length_cons, List.length_dropLast]
    have : g.snake.length ≠ 0 := fun h0 => hne (List.length_eq_zero.mp h0)
    omega

/-- Witness for C1 at the spec's example: grid 50×22, snake
[(25,11),(24,11),(23,11)], direction Right; one step moves the snake to
[(26,11),(25,11),(24,11)] with everything else unchanged. -/
theorem step_moves_snake_forward_witness :
    step exStart [] =
      some { exStart with snake := nextPos exStart :: exStart.snake.dropLast } ∧
    (nextPos exStart :: exStart.snake.dropLast).length = exStart.snake.length :=
  step_moves_snake_forward exStart [] rfl (by decide) (by decide) (by decide)
    (by decide)

/-- C2: In a Playing state whose next head position is interior,
unoccupied and equal to the food, `step` grows the body by exactly one
segment (head pushed, tail kept), adds exactly 10 to the score, sets the
tick interval to max(55, tickInterval - 2) — hence never below the floor
55 — and relocates the food (the new food differs from the eaten one). -/
theorem step_eats_food (g : Game) (rnd : List (Nat × Nat)) (g' : Game)
    (hgo : g.gameOver = false)
    (hin : interiorP g.w g.h (nextPos g)) (hns : nextPos g ∉ g.snake)
    (hf : nextPos g = g.food) (hstep : step g rnd = some g') :
    g'.snake = nextPos g :: g.snake ∧
    g'.snake.length = g.snake.length + 1 ∧
    g'.score = g.score + 10 ∧
    g'.tickMs = max 55 (g.tickMs - 2) ∧
    55 ≤ g'.tickMs ∧
    g'.food ≠ g.food ∧
    g'.dir = g.dir ∧ g'.gameOver = false := by
  have hw0 : hitWall g (nextPos g) = false := (hitWall_eq_false_iff g _).mpr hin
  have hs0 : hitSelf g (nextPos g) = false := (hitSelf_eq_false_iff g _).mpr hns
  rw [step_eq_eat g rnd hgo hw0 hs0 hf] at hstep
  cases hsf : spawnFood g.w g.h (nextPos g :: g.snake) rnd with
  | none =>
    rw [hsf] at hstep
    cases hstep
  | some f =>
    rw [hsf] at hstep
    injection hstep with hstep
    subst hstep
    have hnm := spawnFood_not_mem g.w g.h _ rnd f hsf
    refine ⟨rfl, by simp, rfl, rfl, le_max_left _ _, ?_, rfl, hgo⟩
    intro hfe
    apply hnm
    have hfe' : f = g.food := hfe
    rw [hfe', ← hf]
    exact List.mem_cons_self _ _

/-- Witness for C2 at the spec's example: the initial 50×22 state with
food at (26,11); one step yields body length 4, score 10 and tick
interval 108 (the state `exAfterEat`). -/
theorem step_eats_food_witness :
    exAfterEat.snake = nextPos exFoodAhead :: exFoodAhead.snake ∧
    exAfterEat.snake.length = exFoodAhead.snake.length + 1 ∧
    exAfterEat.score = exFoodAhead.score + 10 ∧
    exAfterEat.tickMs = max 55 (exFoodAhead.tickMs - 2) ∧
    55 ≤ exAfterEat.tickMs ∧
    exAfterEat.food ≠ exFoodAhead.food ∧
    exAfterEat.dir = exFoodAhead.dir ∧ exAfterEat.gameOver = false :=
  step_eats_food exFoodAhead [(0, 0)] exAfterEat rfl (by decide) (by decide)
    (by decide) (by decide)

/-- C3: In a Playing state whose next head position touches the wall
(x = 0, x = w-1, y = 0 or y = h-1) or equals any current body segment
(the tail included), `step` sets gameOver and — by the record-update form
of the result — leaves body, food, score, tick interval and direction
exactly as they were. -/
theorem step_collision_sets_game_over (g : Game) (rnd : List (Nat × Nat))
    (hgo : g.gameOver = false)
    (hc : (nextPos g).x = 0 ∨ (nextPos g).x = g.w - 1 ∨ (nextPos g).y = 0 ∨
          (nextPos g).y = g.h - 1 ∨ nextPos g ∈ g.snake) :
    step g rnd = some { g with gameOver := true } := by
  apply step_eq_collision g rnd hgo
  have hwall : hitWall g (nextPos g) = true →
      (hitWall g (nextPos g) || hitSelf g (nextPos g)) = true := fun hw1 => by
    simp [hw1]
  rcases hc with h | h | h | h | h
  · exact hwall (by simp [hitWall]; omega)
  · exact hwall (by simp [hitWall]; omega)
  · exact hwall (by simp [hitWall]; omega)
  · exact hwall (by simp [hitWall]; omega)
  · have hs1 : hitSelf g (nextPos g) = true := (occupies_eq_true_iff _ _).mpr h
    simp [hs1]

/-- Witness for C3: a snake whose head is at x = 48 moving Right hits
the x = 49 = w-1 wall; the state is unchanged except gameOver. -/
theorem step_collision_sets_game_over_witness :
    step exWall [] = some { exWall with gameOver := true } :=
  step_collision_sets_game_over exWall [] rfl (by decide)

/-- C4: `handleInput` on a recognized direction key (w/a/s/d,
case-insensitive, captured by `keyDir`) leaves the state unchanged when
the mapped direction is the exact opposite of the current one, and
otherwise sets the direction to the mapped value. -/
theorem handleInput_direction_policy (g : Game) (c : Char) (d : Dir)
    (rnd : List (Nat × Nat)) (hc : keyDir c = some d) :
    handleInput g c rnd =
      some (if d = g.dir.opp then g else { g with dir := d }) := by
  rw [handleInput_eq_key g c rnd d hc]
  by_cases hop : d = g.dir.opp
  · rw [if_pos ((isOpposite_eq_true_iff g.dir d).mpr hop), if_pos hop]
  · rw [if_neg fun ht => hop ((isOpposite_eq_true_iff g.dir d).mp ht), if_neg hop]

/-- Witness for C4: pressing 'a' (Left) while moving Right — the exact
opposite — leaves the state unchanged. -/
theorem handleInput_direction_policy_witness :
    handleInput exStart 'a' [] =
      some (if Dir.Left = exStart.dir.opp then exStart
            else { exStart with dir := Dir.Left }) :=
  handleInput_direction_policy exStart 'a' Dir.Left [] (by decide)

/-- C5: `handleInput` with 'r' or 'R' while gameOver performs a full
reset — body back to the initial 3-segment configuration headed at
(w/2, h/2) with two segments to its left, direction Right, score 0, tick
interval 110, gameOver false — and leaves the state entirely unchanged
while gameOver is false. -/
theorem handleInput_restart_policy (g : Game) (c : Char) (rnd : List (Nat × Nat))
    (g' : Game) (hc : c = 'r' ∨ c = 'R') (h : handleInput g c rnd = some g') :
    if g.gameOver then
      g'.snake = [⟨g.w / 2, g.h / 2⟩, ⟨g.w / 2 - 1, g.h / 2⟩, ⟨g.w / 2 - 2, g.h / 2⟩] ∧
      g'.dir = Dir.Right ∧ g'.score = 0 ∧ g'.tickMs = 110 ∧ g'.gameOver = false
    else g' = g := by
  by_cases hgo : g.gameOver = true
  · rw [if_pos hgo]
    rw [handleInput_eq_restart g c rnd hc hgo] at h
    simp only [reset] at h
    split at h
    · cases h
    · injection h with h
      subst h
      exact ⟨rfl, rfl, rfl, rfl, rfl⟩
  · have hgo' : g.gameOver = false := Bool.eq_false_iff.mpr hgo
    rw [if_neg hgo]
    rw [handleInput_eq_ignored_restart g c rnd hc hgo'] at h
    injection h with h
    exact h.symm

/-- Witness for C5: restarting from the game-over state `exOver` yields
the freshly reset state `exStart`. -/
theorem handleInput_restart_policy_witness :
    if exOver.gameOver then
      exStart.snake = [⟨exOver.w / 2, exOver.h / 2⟩, ⟨exOver.w / 2 - 1, exOver.h / 2⟩,
        ⟨exOver.w / 2 - 2, exOver.h / 2⟩] ∧
      exStart.dir = Dir.Right ∧ exStart.score = 0 ∧ exStart.tickMs = 110 ∧
      exStart.gameOver = false
    else exStart = exOver :=
  handleInput_restart_policy exOver 'r' [(0, 0)] exStart (by decide) (by decide)

/-- C6: Whenever `spawnFood` returns a position, that position is an
interior cell (1 ≤ x ≤ w-2 and 1 ≤ y ≤ h-2, excluding the 1-cell
border) and is not equal to any current snake segment. -/
theorem spawnFood_interior_unoccupied (w h : Int) (s : List Vec2)
    (rnd : List (Nat × Nat)) (p : Vec2) (hw : 3 ≤ w) (hh : 3 ≤ h)
    (hret : spawnFood w h s rnd = some p) :
    interiorP w h p ∧ p ∉ s :=
  spawnFood_sound w h s rnd p hw hh hret

/-- Witness for C6: on the 50×22 grid with the initial snake, the draw
(0, 0) yields food at (1, 1), interior and off the snake. -/
theorem spawnFood_interior_unoccupied_witness :
    interiorP 50 22 ⟨1, 1⟩ ∧ (⟨1, 1⟩ : Vec2) ∉ exStart.snake :=
  spawnFood_interior_unoccupied 50 22 exStart.snake [(0, 0)] ⟨1, 1⟩ (by decide)
    (by decide) (by decide)

/-- C7: In every state reachable from the initial 50×22 state via `step`
and `handleInput`, every snake segment and the food lie strictly inside
the walls (1 ≤ x ≤ w-2, 1 ≤ y ≤ h-2); in particular each such position
satisfies 0 ≤ x < w and 0 ≤ y < h, so the writes `buildBuffer` performs
at snake and food positions index the h-by-w buffer in bounds. -/
theorem reachable_positions_in_bounds (g : Game) (hg : Reachable g) :
    (∀ p ∈ g.snake, interiorP g.w g.h p ∧
        0 ≤ p.x ∧ p.x < g.w ∧ 0 ≤ p.y ∧ p.y < g.h) ∧
    interiorP g.w g.h g.food ∧
    0 ≤ g.food.x ∧ g.food.x < g.w ∧ 0 ≤ g.food.y ∧ g.food.y < g.h := by
  obtain ⟨hw50, hh22, _, hseg, hfood, _, _⟩ := reachable_inv g hg
  have hf := hfood
  unfold interiorP at hf
  refine ⟨?_, hfood, by omega, by omega, by omega, by omega⟩
  intro p hp
  have hs := hseg p hp
  have hs' := hs
  unfold interiorP at hs'
  exact ⟨hs, by omega, by omega, by omega, by omega⟩

/-- Witness for C7 at the reachable state `exStart` (image of a reset
from the initial state). -/
theorem reachable_positions_in_bounds_witness :
    Reachable exStart ∧ interiorP exStart.w exStart.h exStart.food ∧
    0 ≤ exStart.food.x ∧ exStart.food.x < exStart.w ∧
    0 ≤ exStart.food.y ∧ exStart.food.y < exStart.h :=
  have hr : Reachable exStart := Reachable.init [(0, 0)] exStart (by decide)
  ⟨hr, (reachable_positions_in_bounds exStart hr).2⟩

/-- C8: In every reachable state with gameOver false the snake's
positions are pairwise distinct, and every `step` or `handleInput` call
from a reachable state that leaves gameOver false preserves this. -/
theorem reachable_snake_nodup (g : Game) (hg : Reachable g) :
    (g.gameOver = false → g.snake.Nodup) ∧
    (∀ rnd g', step g rnd = some g' → g'.gameOver = false → g'.snake.Nodup) ∧
    (∀ c rnd g', handleInput g c rnd = some g' → g'.gameOver = false →
      g'.snake.Nodup) := by
  refine ⟨fun h0 => ?_, fun rnd g' hs h0 => ?_, fun c rnd g' hs h0 => ?_⟩
  · exact (reachable_inv g hg).2.2.2.2.2.1 h0
  · exact (reachable_inv g' (Reachable.stepTr g rnd g' hg hs)).2.2.2.2.2.1 h0
  · exact (reachable_inv g' (Reachable.inputTr g c rnd g' hg hs)).2.2.2.2.2.1 h0

/-- Witness for C8 at the reachable state `exStart`. -/
theorem reachable_snake_nodup_witness :
    Reachable exStart ∧ exStart.snake.Nodup :=
  have hr : Reachable exStart := Reachable.init [(0, 0)] exStart (by decide)
  ⟨hr, (reachable_snake_nodup exStart hr).1 rfl⟩

/-- C9: When gameOver is true, `step` returns the state unchanged in
every field. -/
theorem step_noop_when_game_over (g : Game) (rnd : List (Nat × Nat))
    (hgo : g.gameOver = true) : step g rnd = some g :=
  step_eq_noop g rnd hgo

/-- Witness for C9 at the game-over state `exOver`. -/
theorem step_noop_when_game_over_witness :
    exOver.gameOver = true ∧ step exOver [] = some exOver :=
  ⟨rfl, step_noop_when_game_over exOver [] rfl⟩

/-- C10: In every reachable state the score equals 10 times the body
length minus 3 (and the body length is at least the initial 3). -/
theorem reachable_score_matches_length (g : Game) (hg : Reachable g) :
    3 ≤ g.snake.length ∧ g.score = 10 * ((g.snake.length : Int) - 3) :=
  ⟨(reachable_inv g hg).2.2.1, (reachable_inv g hg).2.2.2.2.2.2⟩

/-- Witness for C10 at the reachable state `exStart`: length 3, score
0 = 10·(3-3). -/
theorem reachable_score_matches_length_witness :
    Reachable exStart ∧ 3 ≤ exStart.snake.length ∧
    exStart.score = 10 * ((exStart.snake.length : Int) - 3) :=
  have hr : Reachable exStart := Reachable.init [(0, 0)] exStart (by decide)
  ⟨hr, reachable_score_matches_length exStart hr⟩
